import Mathlib

/-!
Verification development for the MIFARE Classic dump decoder
(`src/src/utils/NFCDumptoJSON.js`, function `DumpToJson` together with its
helpers `hex2bin` and `guessUidSize`).

The JavaScript source is shallowly embedded: the input is either a string
(a list of characters) or a non-string value; the decoder returns either
`null` (non-string input), a structured `FileJSON` record, or a thrown
JavaScript `TypeError`.  The two `TypeError` sites of the source are
modelled explicitly:
  * `typeErrorNullMatch`  — `block.match(regex)` returned `null` (the block
    does not fit the fixed 32-hex-character shape) and the code immediately
    calls `.slice(1)` on that `null`;
  * `typeErrorNullIndex`  — `guessUidSize` reads `atqa[0]` while `atqa` is
    `null` (neither SAK/ATQA byte pattern matched).
`parseInt(s, 16)` is modelled with `none` standing for JavaScript `NaN`,
and `Uint8Array` element conversion by `toByte` (`NaN`/`null` become `0`).
-/

/-- Whitespace class of the JavaScript regex `\s`, restricted to the
characters that can realistically occur in a textual hex dump (ASCII
whitespace, NBSP, line/paragraph separators, BOM). -/
def jsIsSpace (c : Char) : Bool :=
  c = ' ' || c = '\t' || c = '\n' || c = '\r' ||
  c = '\x0b' || c = '\x0c' || c = ' ' ||
  c = ' ' || c = ' ' || c = '﻿'

/-- `String.prototype.toUpperCase` restricted to the ASCII range (the only
case-carrying characters a hex dump can contain). -/
def jsToUpper (c : Char) : Char :=
  if 'a' ≤ c ∧ c ≤ 'z' then Char.ofNat (c.toNat - 32) else c

/-- The normalizer: `dump.replace(/\s/g, '').toUpperCase()`. -/
def normalizeDump (s : List Char) : List Char :=
  (s.filter (fun c => !jsIsSpace c)).map jsToUpper

/-- Uppercase hexadecimal digits, in value order. -/
def hexDigits : List Char :=
  ['0', '1', '2', '3', '4', '5', '6', '7', '8', '9', 'A', 'B', 'C', 'D', 'E', 'F']

/-- Lowercase hexadecimal letters, in value order (values 10..15). -/
def lowerHexDigits : List Char := ['a', 'b', 'c', 'd', 'e', 'f']

/-- The character class `[A-F0-9]` of the source's fixed-width regexes. -/
def isHexUpper (c : Char) : Bool := hexDigits.contains c

/-- Value of a single hexadecimal digit character, `none` for a non-digit. -/
def hexVal? (c : Char) : Option Nat :=
  if isHexUpper c then some (hexDigits.indexOf c)
  else if lowerHexDigits.contains c then some (10 + lowerHexDigits.indexOf c)
  else none

/-- `parseInt(s, 16)` on the (at most two-character) chunks produced by
`.match(/.{1,2}/g)`: sign handling, the `0x`/`0X` prefix (which leaves no
digits, hence `NaN`), longest valid digit prefix, `none` for `NaN`. -/
def jsParseInt16 (s : List Char) : Option Int :=
  match s with
  | [] => none
  | ['+'] => none
  | ['-'] => none
  | ['+', c] => (hexVal? c).map (fun v => (v : Int))
  | ['-', c] => (hexVal? c).map (fun v => -(v : Int))
  | ['0', 'X'] => none
  | ['0', 'x'] => none
  | [c] => (hexVal? c).map (fun v => (v : Int))
  | [c1, c2] =>
    match hexVal? c1, hexVal? c2 with
    | some v1, some v2 => some (16 * v1 + v2)
    | some v1, none => some v1
    | none, _ => none
  | _ => none

/-- `Uint8Array` element conversion: `null`/`NaN` become `0`, numbers are
taken modulo 2^8. -/
def toByte (v : Option Int) : Nat :=
  match v with
  | none => 0
  | some i => (i % 256).toNat

/-- Parse one `.match(/.{1,2}/g)` chunk to a `Uint8Array` byte. -/
def pv (p : List Char) : Nat := toByte (jsParseInt16 p)

/-- `v.toString(16).padStart(2, '0').toUpperCase()` for a byte value. -/
def byteToHex2 (v : Nat) : List Char :=
  [hexDigits.getD (v / 16) '0', hexDigits.getD (v % 16) '0']

/-- Render a byte sequence as canonical uppercase hex characters. -/
def hexOfBytes (l : List Nat) : List Char := (l.map byteToHex2).flatten

/-- Fuelled worker for `chunks`; the fuel is the length of the list, which
suffices because every step consumes at least one element. -/
def chunksGo (n : Nat) : Nat → List Char → List (List Char)
  | 0, _ => []
  | _, [] => []
  | fuel + 1, l => l.take n :: chunksGo n fuel (l.drop n)

/-- `s.match(new RegExp(".{1," ++ n ++ "}", "g")) || []`: split a string into
consecutive chunks of at most `n` characters, a shorter final chunk
preserved, the empty string giving the empty list. -/
def chunks (n : Nat) (l : List Char) : List (List Char) := chunksGo n l.length l

/-- `hex2bin` of the source: the hex chunk is parsed and rendered as an
8-bit binary string, most significant bit first.  We take the already
parsed byte value and produce the list of its bits as the string's
characters would appear (`0`/`1`). -/
def hex2bin (v : Nat) : List Nat :=
  (List.range 8).map (fun i => if Nat.testBit v (7 - i) then 1 else 0)

/-- The two `TypeError` sites of the source (see module docstring). -/
inductive JsError where
  | typeErrorNullMatch
  | typeErrorNullIndex
deriving DecidableEq, Repr

/-- Classification tag pushed into `dataTypes`: `"V"` or `"D"`. -/
inductive DataType where
  | V
  | D
deriving DecidableEq, Repr

/-- `accessConditions` object of a sector trailer. -/
structure AccessConditions where
  unParsed : List Nat
  parsed : List (List Nat)
deriving DecidableEq, Repr

/-- `sectorTrailer` object. -/
structure SectorTrailer where
  keyA : List Nat
  keyB : List Nat
  userdata : List Nat
  accessConditions : AccessConditions
deriving DecidableEq, Repr

/-- Per-sector record. -/
structure Sector where
  dataValues : List (List Nat)
  dataTypes : List DataType
  sectorTrailer : SectorTrailer
deriving DecidableEq, Repr

/-- `manifacturer` record (the source's spelling is kept). -/
structure Manifacturer where
  uid : List Nat
  nuid : List Nat
  bcc : Option (List Nat)
  sak : Option (List Nat)
  ataq : Option (List Nat)
  data : List Nat
deriving DecidableEq, Repr

/-- Root record returned by `DumpToJson`. -/
structure FileJSON where
  manifacturer : Manifacturer
  sectors : List Sector
deriving DecidableEq, Repr

deriving instance DecidableEq for Except

/-- Result of a `guessUidSize` call: 4, 7, 10 or the string `"unknown"`. -/
inductive UidSize where
  | four
  | seven
  | ten
  | unknown
deriving DecidableEq, Repr

/-- `ToInt32` coercion applied by the `>>` operator (`null`/`NaN` → 0). -/
def jsToInt32 (v : Option Int) : Int :=
  match v with
  | none => 0
  | some i => (i + 2 ^ 31) % 2 ^ 32 - 2 ^ 31

/-- `guessUidSize(sak, atqa)`.  Reading `atqa[0]` while `atqa` is `null`
throws a `TypeError`; `(atqa[0] >> 4) & 0x07` is the sign-propagating
shift (floor division by 16) followed by the low three bits. -/
def guessUidSize (sak : Option Int) (atqa : Option (List (Option Int))) :
    Except JsError UidSize :=
  if sak = some 0x08 then .ok .four
  else if sak = some 0x18 then .ok .seven
  else
    match atqa with
    | none => .error .typeErrorNullIndex
    | some a =>
      let uidIndicator : Int := ((jsToInt32 (a.getD 0 none)).fdiv 16) % 8
      if uidIndicator = 0 then .ok .four
      else if uidIndicator = 1 then .ok .seven
      else if uidIndicator = 2 then .ok .ten
      else .ok .unknown

/-- `slice(0, uidSize)` bound: `"unknown"` coerces to `NaN`, hence 0. -/
def uidSliceLen (u : UidSize) : Nat :=
  match u with
  | .four => 4
  | .seven => 7
  | .ten => 10
  | .unknown => 0

/-- Truthiness of the number-or-null `SAK` local. -/
def sakTruthy (sak : Option Int) : Bool :=
  match sak with
  | none => false
  | some v => v ≠ 0

/-- `dataStart = uidSize + (bcc ? 1 : 0) + (SAK ? 1 : 0) + (ATQA ? 2 : 0)`.
For `uidSize = "unknown"` the `+` chain is string concatenation, the
resulting string coerces to `NaN` inside `slice`, and `slice(NaN)` slices
from 0. -/
def dataStart (u : UidSize) (bccP sakP : Bool) (atqaP : Bool) : Nat :=
  match u with
  | .unknown => 0
  | _ =>
    uidSliceLen u + (if bccP then 1 else 0) + (if sakP then 1 else 0) +
      (if atqaP then 2 else 0)

/-- Manufacturer branch (`i == 0 && j == 0`): pattern detection, UID size
guess, and slicing of the block into the `manifacturer` record. -/
def processManufacturer (block : List Char) : Except JsError Manifacturer :=
  let md : List (Option Int) := (chunks 2 block).map jsParseInt16
  let is4bytes : Bool :=
    (md.getD 5 none = some 0x08 || md.getD 5 none = some 0x88) &&
    md.getD 6 none = some 0x04 && md.getD 7 none = some 0x00
  let is7bytes : Bool :=
    (md.getD 7 none = some 0x18 || md.getD 7 none = some 0x98) &&
    md.getD 8 none = some 0x44 && md.getD 9 none = some 0x00
  let SAK : Option Int :=
    if is4bytes then md.getD 5 none
    else if is7bytes then md.getD 7 none
    else none
  let ATQA : Option (List (Option Int)) :=
    if is4bytes then some ((md.drop 6).take 2)
    else if is7bytes then some ((md.drop 8).take 2)
    else none
  match guessUidSize SAK ATQA with
  | .error e => .error e
  | .ok uidSize =>
    let bccP : Bool := uidSize = .four
    let start := dataStart uidSize bccP (sakTruthy SAK) ATQA.isSome
    .ok
      { uid := (md.take (uidSliceLen uidSize)).map toByte
        nuid := (md.take 4).map toByte
        bcc := if bccP then some [toByte (md.getD 4 none)] else none
        sak := some [toByte SAK]
        ataq := some ((match ATQA with | none => [] | some a => a).map toByte)
        data := (md.drop start).map toByte }

/-- Access-condition bit extraction: for `k` from 3 down to 0, the tuple
`[C1, C2, C3]` with `C1 = bin(byte 1).charAt(k)`,
`C2 = bin(byte 0).charAt(k) ^ 1`, `C3 = bin(byte 2).charAt(k)`. -/
def accessParse (ac : List Nat) : List (List Nat) :=
  [3, 2, 1, 0].map (fun k =>
    [(hex2bin (ac.getD 1 0)).getD k 0,
     Nat.xor ((hex2bin (ac.getD 0 0)).getD k 0) 1,
     (hex2bin (ac.getD 2 0)).getD k 0])

/-- Sector-trailer branch (`j == 3`): the anchored regex
`([A-F0-9]{12})([A-F0-9]{6})([A-F0-9]{2})([A-F0-9]{12})` matches exactly
the 32-character all-hex blocks; a failed match makes the source call
`.slice(1)` on `null`. -/
def processTrailer (block : List Char) : Except JsError SectorTrailer :=
  if block.length = 32 ∧ block.all isHexUpper then
    let keyAhex := block.take 12
    let achex := (block.drop 12).take 6
    let userhex := (block.drop 18).take 2
    let keyBhex := (block.drop 20).take 12
    let acBytes := (chunks 2 achex).map pv
    .ok
      { keyA := (chunks 2 keyAhex).map pv
        keyB := (chunks 2 keyBhex).map pv
        userdata := (chunks 2 userhex).map pv
        accessConditions := { unParsed := acBytes, parsed := accessParse acBytes } }
  else .error .typeErrorNullMatch

/-- De-invert a captured hex group byte-by-byte exactly as the source does:
split into hex pairs, `hex2bin`, `parseInt(_, 2) ^ 0xFF`, re-render as
2-digit uppercase hex (net effect: XOR each byte with `0xFF`). -/
def deinvertHex (g : List Char) : List Char :=
  ((chunks 2 g).map (fun p => byteToHex2 (Nat.xor (pv p) 0xFF))).flatten

/-- Value-block branch (every block that is neither a trailer nor the
manufacturer block): the anchored 7-group regex matches exactly the
32-character all-hex blocks; groups 1, 4, 6 are de-inverted and the chained
string equalities classify the block as `V` or `D`. -/
def processValueBlock (block : List Char) : Except JsError (DataType × List Nat) :=
  if block.length = 32 ∧ block.all isHexUpper then
    let g0 := block.take 8
    let g1 := (block.drop 8).take 8
    let g2 := (block.drop 16).take 8
    let g3 := (block.drop 24).take 2
    let g4 := (block.drop 26).take 2
    let g5 := (block.drop 28).take 2
    let g6 := (block.drop 30).take 2
    let g1i := deinvertHex g1
    let g4i := deinvertHex g4
    let g6i := deinvertHex g6
    let isValueBlock : Bool :=
      g0 = g1i && g1i = g2 && g3 = g4i && g4i = g5 && g5 = g6i
    .ok (if isValueBlock then .V else .D, (chunks 2 block).map pv)
  else .error .typeErrorNullMatch

/-- Zero-initialized sector record (`new Uint8Array(6)` etc.). -/
def initSector : Sector :=
  { dataValues := []
    dataTypes := []
    sectorTrailer :=
      { keyA := List.replicate 6 0
        keyB := List.replicate 6 0
        userdata := [0]
        accessConditions := { unParsed := [0, 0, 0], parsed := [] } } }

/-- Zero-initialized `manifacturer` record. -/
def initManifacturer : Manifacturer :=
  { uid := List.replicate 10 0
    nuid := List.replicate 4 0
    bcc := none
    sak := none
    ataq := none
    data := [] }

/-- `Blocks.forEach((block, j) => ...)`: `j == 3` is the trailer, `i == 0
&& j == 0` the manufacturer block, everything else a value/data block.  A
thrown `TypeError` aborts the whole decode. -/
def processBlocks (i : Nat) (blocks : List (List Char)) (j : Nat)
    (man : Manifacturer) (sec : Sector) :
    Except JsError (Manifacturer × Sector) :=
  match blocks with
  | [] => .ok (man, sec)
  | b :: rest =>
    if j = 3 then
      match processTrailer b with
      | .error e => .error e
      | .ok tr =>
        processBlocks i rest (j + 1) man { sec with sectorTrailer := tr }
    else if i = 0 ∧ j = 0 then
      match processManufacturer b with
      | .error e => .error e
      | .ok m => processBlocks i rest (j + 1) m sec
    else
      match processValueBlock b with
      | .error e => .error e
      | .ok tv =>
        processBlocks i rest (j + 1) man
          { sec with
            dataTypes := sec.dataTypes ++ [tv.1]
            dataValues := sec.dataValues ++ [tv.2] }

/-- `Sectors.forEach((sector, i) => ...)`: each sector chunk is split into
blocks of 32 hex characters and processed; the finished sector is pushed. -/
def processSectors (sectors : List (List Char)) (i : Nat)
    (man : Manifacturer) (acc : List Sector) : Except JsError FileJSON :=
  match sectors with
  | [] => .ok { manifacturer := man, sectors := acc }
  | s :: rest =>
    match processBlocks i (chunks 32 s) 0 man initSector with
    | .error e => .error e
    | .ok p => processSectors rest (i + 1) p.1 (acc ++ [p.2])

/-- A JavaScript call argument: a string or any non-string value. -/
inductive JsInput where
  | str (s : List Char)
  | nonString
deriving DecidableEq

/-- Observable outcome of a `DumpToJson` call: the `null` early return, a
normal return value, or a thrown `TypeError`. -/
inductive JsResult where
  | nullResult
  | ok (fj : FileJSON)
  | thrown (e : JsError)
deriving DecidableEq, Repr

/-- `DumpToJson(dump)`: type check, normalization, segmentation into
128-hex-character sectors, then per-sector decoding. -/
def DumpToJson (dump : JsInput) : JsResult :=
  match dump with
  | .nonString => .nullResult
  | .str s =>
    let hexString := normalizeDump s
    match processSectors (chunks 128 hexString) 0 initManifacturer [] with
    | .error e => .thrown e
    | .ok fj => .ok fj

set_option maxRecDepth 10000

/-! ### Properties of the chunking segmenter -/

lemma chunksGo_nil (n : Nat) : ∀ f, chunksGo n f [] = [] := by
  intro f
  cases f <;> rfl

lemma chunksGo_fuel (n : Nat) (hn : 0 < n) :
    ∀ f1 f2 (l : List Char), l.length ≤ f1 → l.length ≤ f2 →
      chunksGo n f1 l = chunksGo n f2 l := by
  intro f1
  induction f1 with
  | zero =>
    intro f2 l h1 _
    have hl : l = [] := List.eq_nil_of_length_eq_zero (Nat.le_zero.mp h1)
    subst hl
    rw [chunksGo_nil, chunksGo_nil]
  | succ f ih =>
    intro f2 l h1 h2
    cases l with
    | nil => rw [chunksGo_nil, chunksGo_nil]
    | cons c t =>
      cases f2 with
      | zero => simp at h2
      | succ f2' =>
        simp only [chunksGo]
        congr 1
        apply ih
        · simp only [List.length_drop, List.length_cons] at h1 ⊢
          omega
        · simp only [List.length_drop, List.length_cons] at h2 ⊢
          omega

lemma chunks_nil (n : Nat) : chunks n [] = [] := rfl

lemma chunks_cons (n : Nat) (hn : 0 < n) (l : List Char) (hl : l ≠ []) :
    chunks n l = l.take n :: chunks n (l.drop n) := by
  cases l with
  | nil => exact absurd rfl hl
  | cons c t =>
    show chunksGo n (t.length + 1) (c :: t) = _
    simp only [chunksGo]
    congr 1
    apply chunksGo_fuel n hn
    · rw [List.length_drop]
      simp only [List.length_cons]
      omega
    · rfl

lemma chunks_ne_nil (n : Nat) (hn : 0 < n) (l : List Char) (hl : l ≠ []) :
    chunks n l ≠ [] := by
  rw [chunks_cons n hn l hl]
  simp

lemma chunks_length_exact (n : Nat) (hn : 0 < n) :
    ∀ k (l : List Char), l.length = k * n → (chunks n l).length = k := by
  intro k
  induction k with
  | zero =>
    intro l h
    have hl : l = [] := List.eq_nil_of_length_eq_zero (by omega)
    subst hl
    rw [chunks_nil]
    rfl
  | succ k ih =>
    intro l h
    have hexp : (k + 1) * n = k * n + n := by ring
    have hl : l ≠ [] := by
      intro hc
      subst hc
      simp at h
      omega
    rw [chunks_cons n hn l hl]
    simp only [List.length_cons]
    rw [ih (l.drop n) (by rw [List.length_drop, h]; omega)]

lemma chunks_getLast (n : Nat) (hn : 0 < n) :
    ∀ N (l : List Char), l.length = N → l ≠ [] →
      ∃ c m, (chunks n l).getLast? = some c ∧ (chunks n l).length = m + 1 ∧
        l.length = m * n + c.length ∧ 0 < c.length ∧ c.length ≤ n := by
  intro N
  induction N using Nat.strong_induction_on with
  | _ N ih =>
    intro l hN hl
    rw [chunks_cons n hn l hl]
    by_cases hd : l.drop n = []
    · refine ⟨l.take n, 0, ?_, ?_, ?_, ?_, ?_⟩
      · rw [hd, chunks_nil]
        rfl
      · rw [hd, chunks_nil]
        rfl
      · have : l.length ≤ n := by
          have := List.length_drop n l
          rw [hd] at this
          simp at this
          omega
        rw [List.length_take]
        omega
      · rw [List.length_take]
        have : 0 < l.length := List.length_pos.mpr hl
        omega
      · rw [List.length_take]
        omega
    · have hlen : n < l.length := by
        have := List.length_drop n l
        have h2 : 0 < (l.drop n).length := List.length_pos.mpr hd
        omega
      obtain ⟨c, m, h1, h2, h3, h4, h5⟩ :=
        ih (l.drop n).length (by rw [List.length_drop]; omega) (l.drop n) rfl hd
      refine ⟨c, m + 1, ?_, ?_, ?_, h4, h5⟩
      · have : chunks n (l.drop n) ≠ [] := by
          intro hc
          rw [hc] at h2
          simp at h2
        cases hck : chunks n (l.drop n) with
        | nil => exact absurd hck this
        | cons x xs =>
          rw [List.getLast?_cons_cons, ← hck, h1]
      · simp only [List.length_cons]
        omega
      · have hexp : (m + 1) * n = m * n + n := by ring
        rw [List.length_drop] at h3
        omega

/-! ### Shape facts forced by a successful decode -/

lemma processTrailer_ok_shape (b : List Char) (tr : SectorTrailer)
    (h : processTrailer b = .ok tr) : b.length = 32 ∧ b.all isHexUpper = true := by
  by_cases hc : b.length = 32 ∧ b.all isHexUpper = true
  · exact hc
  · unfold processTrailer at h
    rw [if_neg hc] at h
    cases h

lemma processValueBlock_ok_shape (b : List Char) (tv : DataType × List Nat)
    (h : processValueBlock b = .ok tv) : b.length = 32 ∧ b.all isHexUpper = true := by
  by_cases hc : b.length = 32 ∧ b.all isHexUpper = true
  · exact hc
  · unfold processValueBlock at h
    rw [if_neg hc] at h
    cases h

/-- A successful `processBlocks` run forces every block that went through a
fixed-width regex (every block except a manufacturer block at sector 0,
position 0) to be exactly 32 hex characters long. -/
lemma processBlocks_ok_lengths :
    ∀ (blocks : List (List Char)) (i j : Nat) (man : Manifacturer) (sec : Sector) r,
      processBlocks i blocks j man sec = .ok r →
      ∀ t b, blocks[t]? = some b → (j + t = 3 ∨ ¬(i = 0 ∧ j + t = 0)) →
        b.length = 32 := by
  intro blocks
  induction blocks with
  | nil =>
    intro i j man sec r _ t b hb _
    simp at hb
  | cons b0 rest ih =>
    intro i j man sec r h t b hb hcond
    by_cases hj : j = 3
    · cases hpt : processTrailer b0 with
      | error e =>
        have : processBlocks i (b0 :: rest) j man sec = .error e := by
          simp [processBlocks, hj, hpt]
        rw [this] at h
        cases h
      | ok tr =>
        have hstep : processBlocks i (b0 :: rest) j man sec =
            processBlocks i rest (j + 1) man { sec with sectorTrailer := tr } := by
          simp [processBlocks, hj, hpt]
        rw [hstep] at h
        cases t with
        | zero =>
          obtain rfl : b0 = b := by simpa using hb
          exact (processTrailer_ok_shape b0 tr hpt).1
        | succ t' =>
          refine ih i (j + 1) man _ r h t' b (by simpa using hb) ?_
          omega
    · by_cases hm : i = 0 ∧ j = 0
      · cases hpm : processManufacturer b0 with
        | error e =>
          have : processBlocks i (b0 :: rest) j man sec = .error e := by
            simp only [processBlocks, if_neg hj, if_pos hm, hpm]
          rw [this] at h
          cases h
        | ok m =>
          have hstep : processBlocks i (b0 :: rest) j man sec =
              processBlocks i rest (j + 1) m sec := by
            simp only [processBlocks, if_neg hj, if_pos hm, hpm]
          rw [hstep] at h
          cases t with
          | zero =>
            exfalso
            rcases hcond with hc | hc
            · omega
            · exact hc ⟨hm.1, by omega⟩
          | succ t' =>
            refine ih i (j + 1) m sec r h t' b (by simpa using hb) ?_
            omega
      · cases hpv : processValueBlock b0 with
        | error e =>
          have : processBlocks i (b0 :: rest) j man sec = .error e := by
            simp only [processBlocks, if_neg hj, if_neg hm, hpv]
          rw [this] at h
          cases h
        | ok tv =>
          have hstep : processBlocks i (b0 :: rest) j man sec =
              processBlocks i rest (j + 1) man
                { sec with
                  dataTypes := sec.dataTypes ++ [tv.1]
                  dataValues := sec.dataValues ++ [tv.2] } := by
            simp only [processBlocks, if_neg hj, if_neg hm, hpv]
          rw [hstep] at h
          cases t with
          | zero =>
            obtain rfl : b0 = b := by simpa using hb
            exact (processValueBlock_ok_shape b0 tv hpv).1
          | succ t' =>
            refine ih i (j + 1) man _ r h t' b (by simpa using hb) ?_
            omega

/-- A successful `processBlocks` run over positions that never reach
`j = 3` leaves the sector trailer untouched. -/
lemma processBlocks_trailer_unchanged :
    ∀ (blocks : List (List Char)) (i j : Nat) (man : Manifacturer) (sec : Sector) r,
      processBlocks i blocks j man sec = .ok r →
      (∀ t, t < blocks.length → j + t ≠ 3) →
      r.2.sectorTrailer = sec.sectorTrailer := by
  intro blocks
  induction blocks with
  | nil =>
    intro i j man sec r h _
    cases h
    rfl
  | cons b0 rest ih =>
    intro i j man sec r h hno
    have hj : j ≠ 3 := by
      have := hno 0 (by simp)
      omega
    by_cases hm : i = 0 ∧ j = 0
    · cases hpm : processManufacturer b0 with
      | error e =>
        have : processBlocks i (b0 :: rest) j man sec = .error e := by
          simp only [processBlocks, if_neg hj, if_pos hm, hpm]
        rw [this] at h
        cases h
      | ok m =>
        have hstep : processBlocks i (b0 :: rest) j man sec =
            processBlocks i rest (j + 1) m sec := by
          simp only [processBlocks, if_neg hj, if_pos hm, hpm]
        rw [hstep] at h
        refine ih i (j + 1) m sec r h ?_
        intro t ht
        have := hno (t + 1) (by simpa using ht)
        omega
    · cases hpv : processValueBlock b0 with
      | error e =>
        have : processBlocks i (b0 :: rest) j man sec = .error e := by
          simp only [processBlocks, if_neg hj, if_neg hm, hpv]
        rw [this] at h
        cases h
      | ok tv =>
        have hstep : processBlocks i (b0 :: rest) j man sec =
            processBlocks i rest (j + 1) man
              { sec with
                dataTypes := sec.dataTypes ++ [tv.1]
                dataValues := sec.dataValues ++ [tv.2] } := by
          simp only [processBlocks, if_neg hj, if_neg hm, hpv]
        rw [hstep] at h
        have := ih i (j + 1) man _ r h (by intro t ht; have := hno (t + 1) (by simpa using ht); omega)
        simpa using this

/-- One decoded sector is appended per sector chunk. -/
lemma processSectors_ok_length :
    ∀ (sectors : List (List Char)) (i : Nat) (man : Manifacturer)
      (acc : List Sector) (fj : FileJSON),
      processSectors sectors i man acc = .ok fj →
      fj.sectors.length = acc.length + sectors.length := by
  intro sectors
  induction sectors with
  | nil =>
    intro i man acc fj h
    cases h
    simp
  | cons s0 rest ih =>
    intro i man acc fj h
    cases hpb : processBlocks i (chunks 32 s0) 0 man initSector with
    | error e =>
      have : processSectors (s0 :: rest) i man acc = .error e := by
        simp only [processSectors, hpb]
      rw [this] at h
      cases h
    | ok p =>
      have hstep : processSectors (s0 :: rest) i man acc =
          processSectors rest (i + 1) p.1 (acc ++ [p.2]) := by
        simp only [processSectors, hpb]
      rw [hstep] at h
      have := ih (i + 1) p.1 (acc ++ [p.2]) fj h
      simp at this
      simp [this]
      omega

/-- A successful decode ran `processBlocks` successfully on every sector
chunk, at the chunk's index. -/
lemma processSectors_ok_get :
    ∀ (sectors : List (List Char)) (i : Nat) (man : Manifacturer)
      (acc : List Sector) (fj : FileJSON),
      processSectors sectors i man acc = .ok fj →
      ∀ t s, sectors[t]? = some s →
        ∃ man' r, processBlocks (i + t) (chunks 32 s) 0 man' initSector = .ok r := by
  intro sectors
  induction sectors with
  | nil =>
    intro i man acc fj _ t s hs
    simp at hs
  | cons s0 rest ih =>
    intro i man acc fj h t s hs
    cases hpb : processBlocks i (chunks 32 s0) 0 man initSector with
    | error e =>
      have : processSectors (s0 :: rest) i man acc = .error e := by
        simp only [processSectors, hpb]
      rw [this] at h
      cases h
    | ok p =>
      have hstep : processSectors (s0 :: rest) i man acc =
          processSectors rest (i + 1) p.1 (acc ++ [p.2]) := by
        simp only [processSectors, hpb]
      rw [hstep] at h
      cases t with
      | zero =>
        obtain rfl : s0 = s := by simpa using hs
        exact ⟨man, p, by simpa using hpb⟩
      | succ t' =>
        obtain ⟨man', r, hr⟩ := ih (i + 1) p.1 (acc ++ [p.2]) fj h t' s (by simpa using hs)
        exact ⟨man', r, by rw [show i + (t' + 1) = i + 1 + t' by omega]; exact hr⟩

/-- The last decoded sector comes from running `processBlocks` on the last
sector chunk. -/
lemma processSectors_ok_last :
    ∀ (sectors : List (List Char)) (i : Nat) (man : Manifacturer)
      (acc : List Sector) (fj : FileJSON) (s : List Char),
      processSectors sectors i man acc = .ok fj →
      sectors.getLast? = some s →
      ∃ man' r, processBlocks (i + (sectors.length - 1)) (chunks 32 s) 0 man' initSector = .ok r ∧
        fj.sectors.getLast? = some r.2 := by
  intro sectors
  induction sectors with
  | nil =>
    intro i man acc fj s _ hs
    simp at hs
  | cons s0 rest ih =>
    intro i man acc fj s h hs
    cases hpb : processBlocks i (chunks 32 s0) 0 man initSector with
    | error e =>
      have : processSectors (s0 :: rest) i man acc = .error e := by
        simp only [processSectors, hpb]
      rw [this] at h
      cases h
    | ok p =>
      have hstep : processSectors (s0 :: rest) i man acc =
          processSectors rest (i + 1) p.1 (acc ++ [p.2]) := by
        simp only [processSectors, hpb]
      rw [hstep] at h
      cases rest with
      | nil =>
        obtain rfl : s0 = s := by simpa using hs
        cases h
        refine ⟨man, p, by simpa using hpb, ?_⟩
        simp [List.getLast?_concat]
      | cons s1 rest' =>
        have hs' : (s1 :: rest').getLast? = some s := by
          rw [← List.getLast?_cons_cons (a := s0)]
          exact hs
        obtain ⟨man', r, h1, h2⟩ := ih (i + 1) p.1 (acc ++ [p.2]) fj s h hs'
        refine ⟨man', r, ?_, h2⟩
        rw [show i + ((s0 :: s1 :: rest').length - 1) =
              i + 1 + ((s1 :: rest').length - 1) by simp; omega]
        exact h1

/-- Unfolding equation for `DumpToJson` on string inputs. -/
lemma DumpToJson_str_eq (s : List Char) :
    DumpToJson (.str s) =
      match processSectors (chunks 128 (normalizeDump s)) 0 initManifacturer [] with
      | .error e => .thrown e
      | .ok fj => .ok fj := rfl

/-! ### Claim C10: non-string inputs -/

/-- C10: for every input value that is not a string, `DumpToJson` returns
the dedicated failure value `null` (the decoder's typed rejection of
non-textual input, `InvalidInputType` in the specification's taxonomy) and
produces no card structure; segmentation is never reached.  Conversely the
`null` rejection is reserved for non-string inputs: a string input never
returns `null`. -/
theorem c10_invalid_input_type :
    DumpToJson .nonString = .nullResult ∧
    ∀ s : List Char, DumpToJson (.str s) ≠ .nullResult := by
  constructor
  · rfl
  · intro s h
    rw [DumpToJson_str_eq] at h
    cases hps : processSectors (chunks 128 (normalizeDump s)) 0 initManifacturer [] with
    | error e => rw [hps] at h; cases h
    | ok fj => rw [hps] at h; cases h

/-- C10 witness: the non-string rejection, and a concrete string input not
returning the `null` rejection. -/
theorem c10_invalid_input_type_witness :
    DumpToJson .nonString = .nullResult ∧
    DumpToJson (.str ['0']) ≠ .nullResult :=
  ⟨c10_invalid_input_type.1, c10_invalid_input_type.2 ['0']⟩

/-! ### Claim C1 (amended): a short final block aborts the decode with a
thrown TypeError -/

/-- C1 (amended): whenever the normalized hex string is longer than one
block but not block-aligned (its final block is shorter than 32 hex
characters), the decode never returns a result: it always ends in a thrown
(untyped) `TypeError`. -/
theorem c1_short_final_block_throws (s : List Char)
    (h1 : 32 < (normalizeDump s).length)
    (h2 : (normalizeDump s).length % 32 ≠ 0) :
    ∃ e, DumpToJson (.str s) = .thrown e := by
  cases hps : processSectors (chunks 128 (normalizeDump s)) 0 initManifacturer [] with
  | error e =>
    refine ⟨e, ?_⟩
    rw [DumpToJson_str_eq, hps]
  | ok fj =>
    exfalso
    have hne : normalizeDump s ≠ [] := by
      intro hc
      rw [hc] at h1
      simp at h1
    obtain ⟨c, m, hcl, hclen, hsum, hcpos, hcle⟩ :=
      chunks_getLast 128 (by norm_num) (normalizeDump s).length (normalizeDump s) rfl hne
    have hcg : (chunks 128 (normalizeDump s))[m]? = some c := by
      rw [show m = (chunks 128 (normalizeDump s)).length - 1 by omega,
        ← List.getLast?_eq_getElem?]
      exact hcl
    obtain ⟨man', r, hr⟩ :=
      processSectors_ok_get (chunks 128 (normalizeDump s)) 0 initManifacturer [] fj hps m c hcg
    have hcne : c ≠ [] := by
      intro hc
      rw [hc] at hcpos
      simp at hcpos
    obtain ⟨b, m2, hbl, hb2, hbsum, hbpos, hble⟩ :=
      chunks_getLast 32 (by norm_num) c.length c rfl hcne
    have hbg : (chunks 32 c)[m2]? = some b := by
      rw [show m2 = (chunks 32 c).length - 1 by omega, ← List.getLast?_eq_getElem?]
      exact hbl
    have hblt : b.length < 32 := by omega
    have hcase : 1 ≤ m ∨ 1 ≤ m2 := by
      by_cases hm0 : m = 0
      · right
        omega
      · left
        omega
    have := processBlocks_ok_lengths (chunks 32 c) (0 + m) 0 man' initSector r hr m2 b hbg
      (by right; rintro ⟨hma, hmb⟩; omega)
    omega

/-! ### Claim C8 (amended): sector count of block-aligned dumps -/

/-- C8 (amended): for every dump whose normalized hex string has a byte
length that is an exact multiple of 64 (i.e. `n * 128` hex characters,
including zero and lengths above 16 sectors), whenever the decode returns
a card structure its sectors sequence has length exactly `n`; no
sector-count bound of 16 is enforced anywhere. -/
theorem c8_sector_count (s : List Char) (n : Nat) (fj : FileJSON)
    (hlen : (normalizeDump s).length = n * 128)
    (h : DumpToJson (.str s) = .ok fj) :
    fj.sectors.length = n := by
  rw [DumpToJson_str_eq] at h
  cases hps : processSectors (chunks 128 (normalizeDump s)) 0 initManifacturer [] with
  | error e => rw [hps] at h; cases h
  | ok fj' =>
    rw [hps] at h
    cases h
    have := processSectors_ok_length (chunks 128 (normalizeDump s)) 0 initManifacturer [] fj hps
    rw [chunks_length_exact 128 (by norm_num) n (normalizeDump s) hlen] at this
    simpa using this

/-! ### Claim C9 (amended): a trailing partial sector keeps the
zero-initialized trailer -/

/-- C9 (amended): for every dump whose normalized hex length is a positive
multiple of 32 but not of 128 (the trailing partial sector consists of one
to three complete blocks and no fourth block), whenever the decode returns
a card structure, the final sector exists and its trailer is the
zero-initialized default: `keyA`, `keyB`, `userdata` and the raw access
bytes are all zero and the parsed access conditions are empty. -/
theorem c9_partial_sector_default_trailer (s : List Char) (fj : FileJSON)
    (hpos : 0 < (normalizeDump s).length)
    (h32 : (normalizeDump s).length % 32 = 0)
    (h128 : (normalizeDump s).length % 128 ≠ 0)
    (h : DumpToJson (.str s) = .ok fj) :
    ∃ sec, fj.sectors.getLast? = some sec ∧
      sec.sectorTrailer.keyA = List.replicate 6 0 ∧
      sec.sectorTrailer.keyB = List.replicate 6 0 ∧
      sec.sectorTrailer.userdata = [0] ∧
      sec.sectorTrailer.accessConditions.unParsed = [0, 0, 0] ∧
      sec.sectorTrailer.accessConditions.parsed = [] := by
  rw [DumpToJson_str_eq] at h
  cases hps : processSectors (chunks 128 (normalizeDump s)) 0 initManifacturer [] with
  | error e => rw [hps] at h; cases h
  | ok fj' =>
    rw [hps] at h
    cases h
    have hne : normalizeDump s ≠ [] := by
      intro hc
      rw [hc] at hpos
      simp at hpos
    obtain ⟨c, m, hcl, hclen, hsum, hcpos, hcle⟩ :=
      chunks_getLast 128 (by norm_num) (normalizeDump s).length (normalizeDump s) rfl hne
    obtain ⟨man', r, hr, hlast⟩ :=
      processSectors_ok_last (chunks 128 (normalizeDump s)) 0 initManifacturer [] fj c hps hcl
    have hclt : c.length < 128 := by omega
    have hc32 : c.length % 32 = 0 := by omega
    have hkey : c.length = (c.length / 32) * 32 := by omega
    have hchunks : (chunks 32 c).length = c.length / 32 :=
      chunks_length_exact 32 (by norm_num) (c.length / 32) c hkey
    have hsmall : (chunks 32 c).length ≤ 3 := by
      rw [hchunks]
      omega
    have htrailer := processBlocks_trailer_unchanged (chunks 32 c)
      (0 + ((chunks 128 (normalizeDump s)).length - 1)) 0 man' initSector r hr
      (by intro t ht; omega)
    exact ⟨r.2, hlast, by rw [htrailer]; rfl, by rw [htrailer]; rfl, by rw [htrailer]; rfl,
      by rw [htrailer]; rfl, by rw [htrailer]; rfl⟩

/-! ### Concrete dumps used as counterexamples and witnesses -/

/-- A well-formed manufacturer block: UID `01 02 03 04`, BCC `04`, then
the 4-byte-UID tag pattern SAK `08`, ATQA `04 00`, and 8 zero data bytes. -/
def manuBlockHex : String := "01020304040804000000000000000000"

/-- A well-formed sector trailer: Key A all-`FF`, access bytes `FF 07 80`,
user byte `69`, Key B all-`FF`. -/
def trailerHex : String := "FFFFFFFFFFFFFF078069FFFFFFFFFFFF"

/-- A value block `11223344 EEDDCCBB 11223344 05 FA 05 FA` (value copies
consistent, address copies consistent). -/
def valueBlockHex : String := "11223344EEDDCCBB1122334405FA05FA"

/-- One full, fully well-formed sector (64 bytes = 128 hex characters). -/
def dumpValid128 : List Char :=
  (manuBlockHex ++ "00000000000000000000000000000000" ++ valueBlockHex ++ trailerHex).toList

/-- 48 bytes: a partial sector of three complete blocks and no trailer. -/
def dumpValid96 : List Char :=
  (manuBlockHex ++ "00000000000000000000000000000000" ++ valueBlockHex).toList

/-- A 70-byte dump: one full well-formed sector followed by 6 trailing
bytes (a final block of only 12 hex characters). -/
def dump70 : List Char :=
  (manuBlockHex ++ "00000000000000000000000000000000" ++ valueBlockHex ++ trailerHex
    ++ "AABBCCDDEEFF").toList

/-- A 16-byte dump whose manufacturer block carries the 7-byte-UID tag
pattern with SAK `0x98`: bytes `.. .. .. .. .. .. .. 98 44 00 ..`, making
`guessUidSize` resolve to `"unknown"` (ATQA low byte `0x44`, indicator
`0b100`). -/
def dumpC2 : List Char := "00000000000000984400000000000000".toList

/-- 16 zero bytes: a manufacturer block matching neither tag pattern. -/
def dumpZeros32 : List Char := "00000000000000000000000000000000".toList

/-- 32 zero bytes: two complete blocks, manufacturer block matching
neither tag pattern. -/
def dumpZeros64 : List Char := List.replicate 64 '0'

/-- 64 zero bytes: one full all-zero sector, manufacturer block matching
neither tag pattern. -/
def dumpZeros128 : List Char := List.replicate 128 '0'

/-- The record `DumpToJson` actually returns for `dumpValid128`. -/
def dumpValid128FJ : FileJSON :=
  { manifacturer :=
      { uid := [1, 2, 3, 4]
        nuid := [1, 2, 3, 4]
        bcc := some [4]
        sak := some [8]
        ataq := some [4, 0]
        data := [0, 0, 0, 0, 0, 0, 0, 0] }
    sectors :=
      [{ dataValues := [[0, 0, 0, 0, 0, 0, 0, 0, 0, 0, 0, 0, 0, 0, 0, 0],
                        [17, 34, 51, 68, 238, 221, 204, 187, 17, 34, 51, 68, 5, 250, 5, 250]]
         dataTypes := [DataType.D, DataType.V]
         sectorTrailer :=
           { keyA := [255, 255, 255, 255, 255, 255]
             keyB := [255, 255, 255, 255, 255, 255]
             userdata := [105]
             accessConditions :=
               { unParsed := [255, 7, 128]
                 parsed := [[0, 0, 0], [0, 0, 0], [0, 0, 0], [0, 0, 1]] } } }] }

/-- The record `DumpToJson` actually returns for `dumpValid96`. -/
def dumpValid96FJ : FileJSON :=
  { manifacturer :=
      { uid := [1, 2, 3, 4]
        nuid := [1, 2, 3, 4]
        bcc := some [4]
        sak := some [8]
        ataq := some [4, 0]
        data := [0, 0, 0, 0, 0, 0, 0, 0] }
    sectors :=
      [{ dataValues := [[0, 0, 0, 0, 0, 0, 0, 0, 0, 0, 0, 0, 0, 0, 0, 0],
                        [17, 34, 51, 68, 238, 221, 204, 187, 17, 34, 51, 68, 5, 250, 5, 250]]
         dataTypes := [DataType.D, DataType.V]
         sectorTrailer :=
           { keyA := [0, 0, 0, 0, 0, 0]
             keyB := [0, 0, 0, 0, 0, 0]
             userdata := [0]
             accessConditions := { unParsed := [0, 0, 0], parsed := [] } } }] }

/-- The record `DumpToJson` actually returns for `dumpC2` (note the empty
`uid`, sliced as `bytes.slice(0, NaN)`). -/
def dumpC2FJ : FileJSON :=
  { manifacturer :=
      { uid := []
        nuid := [0, 0, 0, 0]
        bcc := none
        sak := some [152]
        ataq := some [68, 0]
        data := [0, 0, 0, 0, 0, 0, 0, 152, 68, 0, 0, 0, 0, 0, 0, 0] }
    sectors :=
      [{ dataValues := []
         dataTypes := []
         sectorTrailer :=
           { keyA := [0, 0, 0, 0, 0, 0]
             keyB := [0, 0, 0, 0, 0, 0]
             userdata := [0]
             accessConditions := { unParsed := [0, 0, 0], parsed := [] } } }] }

/-- C1 counterexample: on the 70-byte dump (one fully well-formed sector
followed by 6 trailing bytes `AA BB CC DD EE FF`), the decode does not
surface a typed decode error: it aborts with the untyped `TypeError`
thrown when the 12-character final block fails the anchored value-block
regex and `.slice(1)` is called on the `null` match result.  No partial
result containing the complete leading sector is returned either. -/
theorem c1_counterexample :
    DumpToJson (.str dump70) = .thrown .typeErrorNullMatch := by decide

/-- C1 witness: the amended statement instantiated at the 70-byte dump. -/
theorem c1_short_final_block_throws_witness :
    32 < (normalizeDump dump70).length ∧ (normalizeDump dump70).length % 32 ≠ 0 ∧
    ∃ e, DumpToJson (.str dump70) = .thrown e :=
  ⟨by decide, by decide, c1_short_final_block_throws dump70 (by decide) (by decide)⟩

/-- C2: evaluation of the decoder at the failing input.  `dumpC2`'s
manufacturer block makes `guessUidSize` resolve to `"unknown"`
(SAK `0x98`, ATQA `44 00`, indicator `0b100`), yet the decode returns a
fully successful result whose `uid` is empty (`slice(0, NaN)`), instead of
failing with a typed `UnresolvedUidSize` error. -/
theorem c2_unknown_uid_size_silent_success :
    DumpToJson (.str dumpC2) = .ok dumpC2FJ ∧ dumpC2FJ.manifacturer.uid = [] := by
  constructor
  · decide
  · rfl

/-- C4: evaluation of the decoder at the failing input.  On a dump whose
manufacturer block (here: 16 zero bytes) matches neither the 4-byte-UID
nor the 7-byte-UID pattern, the decode does not return a record with
absent SAK/ATQA: it throws the `TypeError` raised inside `guessUidSize`
when `atqa[0]` is read from `null`. -/
theorem c4_no_pattern_throws :
    DumpToJson (.str dumpZeros32) = .thrown .typeErrorNullIndex := by decide

/-- C8 counterexample: a 64-byte (one-sector-aligned) all-zero dump does
not decode to a one-sector result at all — the manufacturer block matches
neither tag pattern and the decode throws a `TypeError`, so the claimed
`length / 64` sector count is unattainable for this multiple-of-64
input. -/
theorem c8_counterexample :
    DumpToJson (.str dumpZeros128) = .thrown .typeErrorNullIndex := by decide

/-- C8 witness: the amended statement instantiated at a fully well-formed
one-sector dump. -/
theorem c8_sector_count_witness :
    (normalizeDump dumpValid128).length = 1 * 128 ∧
    DumpToJson (.str dumpValid128) = .ok dumpValid128FJ ∧
    dumpValid128FJ.sectors.length = 1 :=
  ⟨by decide, by decide,
    c8_sector_count dumpValid128 1 dumpValid128FJ (by decide) (by decide)⟩

/-- C9 counterexample: a 32-byte dump (positive multiple of 16 bytes, not
sector-aligned — two complete blocks) does not decode successfully: the
all-zero manufacturer block matches neither tag pattern and the decode
throws a `TypeError`, refuting the claim that every such dump decodes
without error. -/
theorem c9_counterexample :
    DumpToJson (.str dumpZeros64) = .thrown .typeErrorNullIndex := by decide

/-- C9 witness: the amended statement instantiated at a 48-byte dump with
a well-formed manufacturer block and two data blocks. -/
theorem c9_partial_sector_default_trailer_witness :
    0 < (normalizeDump dumpValid96).length ∧
    (normalizeDump dumpValid96).length % 32 = 0 ∧
    (normalizeDump dumpValid96).length % 128 ≠ 0 ∧
    DumpToJson (.str dumpValid96) = .ok dumpValid96FJ ∧
    (∃ sec, dumpValid96FJ.sectors.getLast? = some sec ∧
      sec.sectorTrailer.keyA = List.replicate 6 0 ∧
      sec.sectorTrailer.keyB = List.replicate 6 0 ∧
      sec.sectorTrailer.userdata = [0] ∧
      sec.sectorTrailer.accessConditions.unParsed = [0, 0, 0] ∧
      sec.sectorTrailer.accessConditions.parsed = []) :=
  ⟨by decide, by decide, by decide, by decide,
    c9_partial_sector_default_trailer dumpValid96 dumpValid96FJ
      (by decide) (by decide) (by decide) (by decide)⟩

/-! ### Claim C7: the `guessUidSize` heuristic -/

/-- C7: `guessUidSize` returns 4 whenever SAK is `0x08` regardless of
ATQA, and 7 whenever SAK is `0x18`; for any other SAK with ATQA present it
computes `(atqa[0] >> 4) & 0x07` (modelled as floor division by 16
followed by the low three bits of the 32-bit coercion) and returns 4 for
`0b000`, 7 for `0b001`, 10 for `0b010`, and the `"unknown"` signal for
every other indicator value. -/
theorem c7_guessUidSize :
    (∀ atqa, guessUidSize (some 0x08) atqa = .ok .four) ∧
    (∀ atqa, guessUidSize (some 0x18) atqa = .ok .seven) ∧
    (∀ (sak a0 : Option Int) (rest : List (Option Int)),
      sak ≠ some 0x08 → sak ≠ some 0x18 →
      ((((jsToInt32 a0).fdiv 16) % 8 = 0 →
          guessUidSize sak (some (a0 :: rest)) = .ok .four) ∧
       (((jsToInt32 a0).fdiv 16) % 8 = 1 →
          guessUidSize sak (some (a0 :: rest)) = .ok .seven) ∧
       (((jsToInt32 a0).fdiv 16) % 8 = 2 →
          guessUidSize sak (some (a0 :: rest)) = .ok .ten) ∧
       (∀ v, ((jsToInt32 a0).fdiv 16) % 8 = v → 3 ≤ v → v ≤ 7 →
          guessUidSize sak (some (a0 :: rest)) = .ok .unknown))) := by
  refine ⟨?_, ?_, ?_⟩
  · intro atqa
    simp [guessUidSize]
  · intro atqa
    simp [guessUidSize]
  · intro sak a0 rest h8 h18
    unfold guessUidSize
    rw [if_neg h8, if_neg h18]
    refine ⟨?_, ?_, ?_, ?_⟩
    · intro hind
      simp [hind]
    · intro hind
      simp [hind]
    · intro hind
      simp [hind]
    · intro v hind h3 h7
      have hv0 : ((jsToInt32 a0).fdiv 16) % 8 ≠ 0 := by omega
      have hv1 : ((jsToInt32 a0).fdiv 16) % 8 ≠ 1 := by omega
      have hv2 : ((jsToInt32 a0).fdiv 16) % 8 ≠ 2 := by omega
      simp [hv0, hv1, hv2]

/-- C7 witness: concrete instantiations — SAK `0x08` with absent ATQA,
SAK `0x18`, and SAK `0x98` with ATQA `44 00` (indicator `0b100`,
`"unknown"`). -/
theorem c7_guessUidSize_witness :
    guessUidSize (some 0x08) none = .ok .four ∧
    guessUidSize (some 0x18) none = .ok .seven ∧
    guessUidSize (some 0x98) (some [some 0x44, some 0x00]) = .ok .unknown :=
  ⟨c7_guessUidSize.1 none, c7_guessUidSize.2.1 none,
    (c7_guessUidSize.2.2 (some 0x98) (some 0x44) [some 0x00] (by decide) (by decide)).2.2.2
      4 (by decide) (by omega) (by omega)⟩

/-! ### Claim C3: the parsed access conditions -/

/-- Modelled from the claim's wording: the character at position `k` of
the 8-bit binary rendering of byte `b` with bit 7 (the most significant
bit) written first — i.e. bit `7 - k` of `b` — as the digit it renders
to. -/
def specAccessBit (b k : Nat) : Nat :=
  if Nat.testBit b (7 - k) then 1 else 0

/-- Modelled from the claim's wording: the three-character tuple
`C1 C2 C3` for block position `k`, with `C1` = bit `k` of `access_raw[1]`,
`C2` = bit `k` of `access_raw[0]` bitwise-inverted (XOR 1), and `C3` =
bit `k` of `access_raw[2]`, bits read off the most-significant-first
rendering. -/
def specAccessTuple (raw : List Nat) (k : Nat) : List Nat :=
  [specAccessBit (raw.getD 1 0) k,
   Nat.xor (specAccessBit (raw.getD 0 0) k) 1,
   specAccessBit (raw.getD 2 0) k]

/-- Modelled from the claim's wording: iterate block position `k` from 3
down to 0 and append the tuples in that order, so the trailer block's
tuple (k = 3) comes first. -/
def specAccessParsed (raw : List Nat) : List (List Nat) :=
  (List.range 4).map (fun t => specAccessTuple raw (3 - t))

lemma accessParse_eq_spec (ac : List Nat) : accessParse ac = specAccessParsed ac := by
  have h8 : List.range 8 = [0, 1, 2, 3, 4, 5, 6, 7] := rfl
  have h4 : List.range 4 = [0, 1, 2, 3] := rfl
  simp [accessParse, specAccessParsed, specAccessTuple, specAccessBit, hex2bin, h8, h4]

/-- C3: for every trailer block the decoder accepts, `access_parsed` has
exactly 4 entries and is obtained by iterating block position `k` from 3
down to 0 (trailer tuple first) appending the tuple `C1 C2 C3` with
`C1` = bit `k` of `access_raw[1]`, `C2` = bit `k` of `access_raw[0]`
inverted, `C3` = bit `k` of `access_raw[2]`, where each byte is read
through its 8-bit most-significant-first binary rendering. -/
theorem c3_access_parsed (block : List Char) (tr : SectorTrailer)
    (h : processTrailer block = .ok tr) :
    tr.accessConditions.parsed.length = 4 ∧
    tr.accessConditions.parsed = specAccessParsed tr.accessConditions.unParsed := by
  by_cases hc : block.length = 32 ∧ block.all isHexUpper = true
  · unfold processTrailer at h
    rw [if_pos hc] at h
    cases h
    constructor
    · rfl
    · exact accessParse_eq_spec _
  · unfold processTrailer at h
    rw [if_neg hc] at h
    cases h

/-- The trailer record decoded from `trailerHex`. -/
def trailerRec : SectorTrailer :=
  { keyA := [255, 255, 255, 255, 255, 255]
    keyB := [255, 255, 255, 255, 255, 255]
    userdata := [105]
    accessConditions :=
      { unParsed := [255, 7, 128]
        parsed := [[0, 0, 0], [0, 0, 0], [0, 0, 0], [0, 0, 1]] } }

/-- C3 witness: the concrete trailer `FF..FF FF0780 69 FF..FF`. -/
theorem c3_access_parsed_witness :
    processTrailer trailerHex.toList = .ok trailerRec ∧
    trailerRec.accessConditions.parsed.length = 4 ∧
    trailerRec.accessConditions.parsed =
      specAccessParsed trailerRec.accessConditions.unParsed :=
  ⟨by decide, c3_access_parsed trailerHex.toList trailerRec (by decide)⟩

/-! ### Claim C6: trailer round trip -/

lemma mem_of_isHexUpper (c : Char) (h : isHexUpper c = true) : c ∈ hexDigits := by
  simpa [isHexUpper] using h

/-- Re-rendering the byte parsed from a pair of uppercase hex characters
reproduces the pair. -/
lemma byteToHex2_pv_pair (c1 c2 : Char) (h1 : isHexUpper c1 = true)
    (h2 : isHexUpper c2 = true) : byteToHex2 (pv [c1, c2]) = [c1, c2] := by
  have hm1 := mem_of_isHexUpper c1 h1
  have hm2 := mem_of_isHexUpper c2 h2
  fin_cases hm1 <;> fin_cases hm2 <;> decide

/-- Parsing an even-length uppercase-hex string into bytes and
re-rendering reproduces the string. -/
lemma encode_decode : ∀ (k : Nat) (l : List Char), l.length = 2 * k →
    l.all isHexUpper = true → hexOfBytes ((chunks 2 l).map pv) = l := by
  intro k
  induction k with
  | zero =>
    intro l h _
    have hl : l = [] := List.eq_nil_of_length_eq_zero (by omega)
    subst hl
    rfl
  | succ k ih =>
    intro l hlen hhex
    rcases l with _ | ⟨c1, l1⟩
    · simp at hlen
    rcases l1 with _ | ⟨c2, rest⟩
    · simp at hlen
      omega
    have hc : chunks 2 (c1 :: c2 :: rest) = [c1, c2] :: chunks 2 rest := by
      rw [chunks_cons 2 (by norm_num) _ (by simp)]
      simp
    simp only [List.all_cons, Bool.and_eq_true] at hhex
    rw [hc]
    simp only [List.map_cons]
    have hco : hexOfBytes (pv [c1, c2] :: (chunks 2 rest).map pv) =
        byteToHex2 (pv [c1, c2]) ++ hexOfBytes ((chunks 2 rest).map pv) := rfl
    rw [hco, byteToHex2_pv_pair c1 c2 hhex.1 hhex.2.1,
      ih rest (by simp only [List.length_cons] at hlen; omega) hhex.2.2]
    rfl

/-- All-hex is inherited by `drop`-then-`take` segments. -/
lemma all_take_drop (l : List Char) (hp : l.all isHexUpper = true) (n m : Nat) :
    ((l.drop n).take m).all isHexUpper = true := by
  rw [List.all_eq_true] at hp ⊢
  intro x hx
  exact hp x (List.mem_of_mem_drop (List.mem_of_mem_take hx))

/-- C6: every well-formed 32-hex-character trailer block is accepted, and
re-encoding the decoded trailer's four fields (`key_a` as 12 hex
characters, `access_raw` as 6, `user_byte` as 2, `key_b` as 12) and
concatenating them in that order reproduces the original block exactly. -/
theorem c6_trailer_roundtrip (block : List Char)
    (hlen : block.length = 32) (hhex : block.all isHexUpper = true) :
    ∃ tr, processTrailer block = .ok tr ∧
      hexOfBytes tr.keyA ++ hexOfBytes tr.accessConditions.unParsed ++
        hexOfBytes tr.userdata ++ hexOfBytes tr.keyB = block := by
  refine ⟨_, by unfold processTrailer; rw [if_pos ⟨hlen, hhex⟩], ?_⟩
  have ht12 : (block.take 12).all isHexUpper = true := by
    have := all_take_drop block hhex 0 12
    simpa using this
  have e1 : hexOfBytes ((chunks 2 (block.take 12)).map pv) = block.take 12 :=
    encode_decode 6 _ (by simp [hlen]) ht12
  have e2 : hexOfBytes ((chunks 2 ((block.drop 12).take 6)).map pv) = (block.drop 12).take 6 :=
    encode_decode 3 _ (by simp [hlen]) (all_take_drop block hhex 12 6)
  have e3 : hexOfBytes ((chunks 2 ((block.drop 18).take 2)).map pv) = (block.drop 18).take 2 :=
    encode_decode 1 _ (by simp [hlen]) (all_take_drop block hhex 18 2)
  have e4 : hexOfBytes ((chunks 2 ((block.drop 20).take 12)).map pv) = (block.drop 20).take 12 :=
    encode_decode 6 _ (by simp [hlen]) (all_take_drop block hhex 20 12)
  rw [e1, e2, e3, e4]
  have h20 : (block.drop 20).take 12 = block.drop 20 := by
    apply List.take_of_length_le
    simp [hlen]
  rw [h20, show block.drop 20 = (block.drop 18).drop 2 by rw [List.drop_drop]]
  simp only [List.append_assoc]
  rw [List.take_append_drop, show block.drop 18 = (block.drop 12).drop 6 by rw [List.drop_drop],
    List.take_append_drop, List.take_append_drop]

/-- C6 witness: the concrete trailer `FF..FF FF0780 69 FF..FF` round
trips. -/
theorem c6_trailer_roundtrip_witness :
    trailerHex.toList.length = 32 ∧ trailerHex.toList.all isHexUpper = true ∧
    ∃ tr, processTrailer trailerHex.toList = .ok tr ∧
      hexOfBytes tr.keyA ++ hexOfBytes tr.accessConditions.unParsed ++
        hexOfBytes tr.userdata ++ hexOfBytes tr.keyB = trailerHex.toList :=
  ⟨by decide, by decide, c6_trailer_roundtrip trailerHex.toList (by decide) (by decide)⟩

/-! ### Byte-level characterization of the value-block classifier -/

lemma pv_byteToHex2 : ∀ v < 256, pv (byteToHex2 v) = v := by decide

lemma byteToHex2_all_hex : ∀ v < 256, (byteToHex2 v).all isHexUpper = true := by decide

lemma xor255_lt : ∀ v < 256, Nat.xor v 255 < 256 := by decide

lemma xor_pow_lt : ∀ v < 256, ∀ i < 8, Nat.xor v (2 ^ i) < 256 := by decide

lemma xor_pow_ne : ∀ v < 256, ∀ i < 8, Nat.xor v (2 ^ i) ≠ v := by decide

lemma hexOfBytes_cons (b : Nat) (l : List Nat) :
    hexOfBytes (b :: l) = byteToHex2 b ++ hexOfBytes l := rfl

lemma hexOfBytes_length (l : List Nat) : (hexOfBytes l).length = 2 * l.length := by
  induction l with
  | nil => rfl
  | cons b t ih =>
    rw [hexOfBytes_cons, List.length_append, ih]
    simp [byteToHex2]
    omega

lemma hexOfBytes_all_hex (l : List Nat) (h : ∀ b ∈ l, b < 256) :
    (hexOfBytes l).all isHexUpper = true := by
  induction l with
  | nil => rfl
  | cons b t ih =>
    rw [hexOfBytes_cons, List.all_append, Bool.and_eq_true]
    exact ⟨byteToHex2_all_hex b (h b (by simp)), ih (fun x hx => h x (by simp [hx]))⟩

lemma chunks_two_hexOfBytes (l : List Nat) :
    chunks 2 (hexOfBytes l) = l.map byteToHex2 := by
  induction l with
  | nil => rfl
  | cons b t ih =>
    rw [hexOfBytes_cons]
    rw [chunks_cons 2 (by norm_num) _ (by simp [byteToHex2])]
    simp only [byteToHex2, List.cons_append, List.nil_append, List.take_succ_cons,
      List.take_zero, List.drop_succ_cons, List.drop_zero, List.map_cons]
    rw [ih]

lemma map_pv_hexOfBytes (l : List Nat) (h : ∀ b ∈ l, b < 256) :
    (chunks 2 (hexOfBytes l)).map pv = l := by
  rw [chunks_two_hexOfBytes, List.map_map]
  have he : ∀ b ∈ l, (pv ∘ byteToHex2) b = id b := fun b hb => pv_byteToHex2 b (h b hb)
  rw [List.map_congr_left he, List.map_id]

lemma hexOfBytes_inj (l1 l2 : List Nat) (h1 : ∀ b ∈ l1, b < 256)
    (h2 : ∀ b ∈ l2, b < 256) : (hexOfBytes l1 = hexOfBytes l2) ↔ l1 = l2 := by
  constructor
  · intro h
    have hx := map_pv_hexOfBytes l1 h1
    rw [h, map_pv_hexOfBytes l2 h2] at hx
    exact hx.symm
  · intro h
    rw [h]

lemma hexOfBytes_take (l : List Nat) : ∀ k, (hexOfBytes l).take (2 * k) = hexOfBytes (l.take k) := by
  induction l with
  | nil => intro k; simp [hexOfBytes]
  | cons b t ih =>
    intro k
    cases k with
    | zero => simp [hexOfBytes]
    | succ k =>
      rw [hexOfBytes_cons]
      simp only [byteToHex2, List.cons_append, List.nil_append]
      rw [show 2 * (k + 1) = 2 * k + 1 + 1 by omega, List.take_succ_cons, List.take_succ_cons,
        ih k, List.take_succ_cons]
      rfl

lemma hexOfBytes_drop (l : List Nat) : ∀ k, (hexOfBytes l).drop (2 * k) = hexOfBytes (l.drop k) := by
  induction l with
  | nil => intro k; simp [hexOfBytes]
  | cons b t ih =>
    intro k
    cases k with
    | zero => simp
    | succ k =>
      rw [hexOfBytes_cons]
      simp only [byteToHex2, List.cons_append, List.nil_append]
      rw [show 2 * (k + 1) = 2 * k + 1 + 1 by omega, List.drop_succ_cons, List.drop_succ_cons,
        ih k, List.drop_succ_cons]

lemma deinvertHex_hexOfBytes (l : List Nat) (h : ∀ b ∈ l, b < 256) :
    deinvertHex (hexOfBytes l) = hexOfBytes (l.map (fun b => Nat.xor b 255)) := by
  unfold deinvertHex
  rw [chunks_two_hexOfBytes, List.map_map]
  show _ = (List.map byteToHex2 (l.map (fun b => Nat.xor b 255))).flatten
  rw [List.map_map]
  congr 1
  apply List.map_congr_left
  intro b hb
  simp only [Function.comp_apply]
  rw [pv_byteToHex2 b (h b hb)]

/-- Modelled from the claim's wording (spec side of the refinement): a
16-byte block is a value block iff the three 4-byte value copies agree
(the second one byte-wise de-inverted) and the four 1-byte address copies
agree (the second and fourth de-inverted), compared in the source's
chained order. -/
def specIsValueBlock (bytes : List Nat) : Bool :=
  (bytes.take 4 = ((bytes.drop 4).take 4).map (fun b => Nat.xor b 255)) &&
  (((bytes.drop 4).take 4).map (fun b => Nat.xor b 255) = (bytes.drop 8).take 4) &&
  ((bytes.drop 12).take 1 = ((bytes.drop 13).take 1).map (fun b => Nat.xor b 255)) &&
  (((bytes.drop 13).take 1).map (fun b => Nat.xor b 255) = (bytes.drop 14).take 1) &&
  ((bytes.drop 14).take 1 = ((bytes.drop 15).take 1).map (fun b => Nat.xor b 255))

lemma sub_lt_of_lt (bytes : List Nat) (hb : ∀ b ∈ bytes, b < 256) (n m : Nat) :
    ∀ b ∈ (bytes.drop n).take m, b < 256 :=
  fun b hbm => hb b (List.mem_of_mem_drop (List.mem_of_mem_take hbm))

lemma map_xor_lt (l : List Nat) (h : ∀ b ∈ l, b < 256) :
    ∀ b ∈ l.map (fun b => Nat.xor b 255), b < 256 := by
  intro b hbm
  obtain ⟨a, ha, rfl⟩ := List.mem_map.mp hbm
  exact xor255_lt a (h a ha)

/-- The classifier on the canonical hex rendering of a 16-byte block:
never an error, class determined by `specIsValueBlock`, data bytes the
block itself. -/
lemma processValueBlock_hexOfBytes (bytes : List Nat) (h16 : bytes.length = 16)
    (hb : ∀ b ∈ bytes, b < 256) :
    processValueBlock (hexOfBytes bytes) =
      .ok (if specIsValueBlock bytes then .V else .D, bytes) := by
  have hlen32 : (hexOfBytes bytes).length = 32 := by rw [hexOfBytes_length, h16]
  have hhex := hexOfBytes_all_hex bytes hb
  unfold processValueBlock
  rw [if_pos ⟨hlen32, hhex⟩]
  have s0 : (hexOfBytes bytes).take 8 = hexOfBytes (bytes.take 4) := by
    have := hexOfBytes_take bytes 4
    norm_num at this
    exact this
  have sd8 : (hexOfBytes bytes).drop 8 = hexOfBytes (bytes.drop 4) := by
    have := hexOfBytes_drop bytes 4
    norm_num at this
    exact this
  have s1 : ((hexOfBytes bytes).drop 8).take 8 = hexOfBytes ((bytes.drop 4).take 4) := by
    rw [sd8]
    have := hexOfBytes_take (bytes.drop 4) 4
    norm_num at this
    exact this
  have s2 : ((hexOfBytes bytes).drop 16).take 8 = hexOfBytes ((bytes.drop 8).take 4) := by
    have hd := hexOfBytes_drop bytes 8
    norm_num at hd
    rw [hd]
    have := hexOfBytes_take (bytes.drop 8) 4
    norm_num at this
    exact this
  have s3 : ((hexOfBytes bytes).drop 24).take 2 = hexOfBytes ((bytes.drop 12).take 1) := by
    have hd := hexOfBytes_drop bytes 12
    norm_num at hd
    rw [hd]
    have := hexOfBytes_take (bytes.drop 12) 1
    norm_num at this
    exact this
  have s4 : ((hexOfBytes bytes).drop 26).take 2 = hexOfBytes ((bytes.drop 13).take 1) := by
    have hd := hexOfBytes_drop bytes 13
    norm_num at hd
    rw [hd]
    have := hexOfBytes_take (bytes.drop 13) 1
    norm_num at this
    exact this
  have s5 : ((hexOfBytes bytes).drop 28).take 2 = hexOfBytes ((bytes.drop 14).take 1) := by
    have hd := hexOfBytes_drop bytes 14
    norm_num at hd
    rw [hd]
    have := hexOfBytes_take (bytes.drop 14) 1
    norm_num at this
    exact this
  have s6 : ((hexOfBytes bytes).drop 30).take 2 = hexOfBytes ((bytes.drop 15).take 1) := by
    have hd := hexOfBytes_drop bytes 15
    norm_num at hd
    rw [hd]
    have := hexOfBytes_take (bytes.drop 15) 1
    norm_num at this
    exact this
  rw [s0, s1, s2, s3, s4, s5, s6]
  dsimp only
  rw [deinvertHex_hexOfBytes _ (sub_lt_of_lt bytes hb 4 4),
    deinvertHex_hexOfBytes _ (sub_lt_of_lt bytes hb 13 1),
    deinvertHex_hexOfBytes _ (sub_lt_of_lt bytes hb 15 1),
    map_pv_hexOfBytes bytes hb]
  have htk4 : ∀ b ∈ bytes.take 4, b < 256 := fun b h' => hb b (List.mem_of_mem_take h')
  rw [decide_eq_decide.mpr
      (hexOfBytes_inj _ _ htk4 (map_xor_lt _ (sub_lt_of_lt bytes hb 4 4))),
    decide_eq_decide.mpr
      (hexOfBytes_inj _ _ (map_xor_lt _ (sub_lt_of_lt bytes hb 4 4)) (sub_lt_of_lt bytes hb 8 4)),
    decide_eq_decide.mpr
      (hexOfBytes_inj _ _ (sub_lt_of_lt bytes hb 12 1) (map_xor_lt _ (sub_lt_of_lt bytes hb 13 1))),
    decide_eq_decide.mpr
      (hexOfBytes_inj _ _ (map_xor_lt _ (sub_lt_of_lt bytes hb 13 1)) (sub_lt_of_lt bytes hb 14 1)),
    decide_eq_decide.mpr
      (hexOfBytes_inj _ _ (sub_lt_of_lt bytes hb 14 1) (map_xor_lt _ (sub_lt_of_lt bytes hb 15 1)))]
  rfl

lemma xor255_inj (x y : Nat) (h : Nat.xor x 255 = Nat.xor y 255) : x = y := by
  have hcan : ∀ z : Nat, Nat.xor (Nat.xor z 255) 255 = z := fun z => Nat.xor_cancel_right 255 z
  have h2 : Nat.xor (Nat.xor x 255) 255 = Nat.xor (Nat.xor y 255) 255 := by rw [h]
  rwa [hcan, hcan] at h2

/-- `specIsValueBlock` on an explicit 16-byte block, written as the eleven
byte equations of value triple-redundancy and address
quadruple-redundancy. -/
lemma specIsValueBlock_sixteen
    (b0 b1 b2 b3 b4 b5 b6 b7 b8 b9 b10 b11 b12 b13 b14 b15 : Nat) :
    specIsValueBlock [b0, b1, b2, b3, b4, b5, b6, b7, b8, b9, b10, b11, b12, b13, b14, b15] =
        true ↔
      (b0 = Nat.xor b4 255 ∧ b1 = Nat.xor b5 255 ∧ b2 = Nat.xor b6 255 ∧ b3 = Nat.xor b7 255) ∧
      (Nat.xor b4 255 = b8 ∧ Nat.xor b5 255 = b9 ∧ Nat.xor b6 255 = b10 ∧ Nat.xor b7 255 = b11) ∧
      b12 = Nat.xor b13 255 ∧ Nat.xor b13 255 = b14 ∧ b14 = Nat.xor b15 255 := by
  simp [specIsValueBlock]
  tauto

/-- Flipping any single bit of any copy inside a 16-byte block that
satisfies the value-block redundancy breaks the redundancy. -/
lemma specIsValueBlock_flip (bytes : List Nat) (h16 : bytes.length = 16)
    (hb : ∀ b ∈ bytes, b < 256) (p i : Nat) (hp : p < 16) (hi : i < 8)
    (hv : specIsValueBlock bytes = true) :
    specIsValueBlock (bytes.set p (Nat.xor (bytes.getD p 0) (2 ^ i))) = false := by
  rcases bytes with _ | ⟨b0, l⟩
  · simp only [List.length_nil] at h16; omega
  rcases l with _ | ⟨b1, l⟩
  · simp only [List.length_cons, List.length_nil] at h16; omega
  rcases l with _ | ⟨b2, l⟩
  · simp only [List.length_cons, List.length_nil] at h16; omega
  rcases l with _ | ⟨b3, l⟩
  · simp only [List.length_cons, List.length_nil] at h16; omega
  rcases l with _ | ⟨b4, l⟩
  · simp only [List.length_cons, List.length_nil] at h16; omega
  rcases l with _ | ⟨b5, l⟩
  · simp only [List.length_cons, List.length_nil] at h16; omega
  rcases l with _ | ⟨b6, l⟩
  · simp only [List.length_cons, List.length_nil] at h16; omega
  rcases l with _ | ⟨b7, l⟩
  · simp only [List.length_cons, List.length_nil] at h16; omega
  rcases l with _ | ⟨b8, l⟩
  · simp only [List.length_cons, List.length_nil] at h16; omega
  rcases l with _ | ⟨b9, l⟩
  · simp only [List.length_cons, List.length_nil] at h16; omega
  rcases l with _ | ⟨b10, l⟩
  · simp only [List.length_cons, List.length_nil] at h16; omega
  rcases l with _ | ⟨b11, l⟩
  · simp only [List.length_cons, List.length_nil] at h16; omega
  rcases l with _ | ⟨b12, l⟩
  · simp only [List.length_cons, List.length_nil] at h16; omega
  rcases l with _ | ⟨b13, l⟩
  · simp only [List.length_cons, List.length_nil] at h16; omega
  rcases l with _ | ⟨b14, l⟩
  · simp only [List.length_cons, List.length_nil] at h16; omega
  rcases l with _ | ⟨b15, l⟩
  · simp only [List.length_cons, List.length_nil] at h16; omega
  rcases l with _ | ⟨b16x, l⟩
  case cons.cons =>
    simp only [List.length_cons, List.length_nil] at h16
    omega
  have h0 : b0 < 256 := hb b0 (by simp)
  have h1 : b1 < 256 := hb b1 (by simp)
  have h2 : b2 < 256 := hb b2 (by simp)
  have h3 : b3 < 256 := hb b3 (by simp)
  have h4 : b4 < 256 := hb b4 (by simp)
  have h5 : b5 < 256 := hb b5 (by simp)
  have h6 : b6 < 256 := hb b6 (by simp)
  have h7 : b7 < 256 := hb b7 (by simp)
  have h8 : b8 < 256 := hb b8 (by simp)
  have h9 : b9 < 256 := hb b9 (by simp)
  have h10 : b10 < 256 := hb b10 (by simp)
  have h11 : b11 < 256 := hb b11 (by simp)
  have h12 : b12 < 256 := hb b12 (by simp)
  have h13 : b13 < 256 := hb b13 (by simp)
  have h14 : b14 < 256 := hb b14 (by simp)
  have h15 : b15 < 256 := hb b15 (by simp)
  rw [specIsValueBlock_sixteen] at hv
  obtain ⟨⟨v1, v2, v3, v4⟩, ⟨w1, w2, w3, w4⟩, a1, a2, a3⟩ := hv
  interval_cases p
  · simp only [List.getD_cons_zero, List.set_cons_zero]
    rw [Bool.eq_false_iff]
    intro hc
    rw [specIsValueBlock_sixteen] at hc
    exact xor_pow_ne b0 h0 i hi (hc.1.1.trans v1.symm)
  · simp
    rw [Bool.eq_false_iff]
    intro hc
    rw [specIsValueBlock_sixteen] at hc
    exact xor_pow_ne b1 h1 i hi (hc.1.2.1.trans v2.symm)
  · simp
    rw [Bool.eq_false_iff]
    intro hc
    rw [specIsValueBlock_sixteen] at hc
    exact xor_pow_ne b2 h2 i hi (hc.1.2.2.1.trans v3.symm)
  · simp
    rw [Bool.eq_false_iff]
    intro hc
    rw [specIsValueBlock_sixteen] at hc
    exact xor_pow_ne b3 h3 i hi (hc.1.2.2.2.trans v4.symm)
  · simp
    rw [Bool.eq_false_iff]
    intro hc
    rw [specIsValueBlock_sixteen] at hc
    exact xor_pow_ne b4 h4 i hi (xor255_inj _ _ (hc.1.1.symm.trans v1))
  · simp
    rw [Bool.eq_false_iff]
    intro hc
    rw [specIsValueBlock_sixteen] at hc
    exact xor_pow_ne b5 h5 i hi (xor255_inj _ _ (hc.1.2.1.symm.trans v2))
  · simp
    rw [Bool.eq_false_iff]
    intro hc
    rw [specIsValueBlock_sixteen] at hc
    exact xor_pow_ne b6 h6 i hi (xor255_inj _ _ (hc.1.2.2.1.symm.trans v3))
  · simp
    rw [Bool.eq_false_iff]
    intro hc
    rw [specIsValueBlock_sixteen] at hc
    exact xor_pow_ne b7 h7 i hi (xor255_inj _ _ (hc.1.2.2.2.symm.trans v4))
  · simp
    rw [Bool.eq_false_iff]
    intro hc
    rw [specIsValueBlock_sixteen] at hc
    exact xor_pow_ne b8 h8 i hi (hc.2.1.1.symm.trans w1)
  · simp
    rw [Bool.eq_false_iff]
    intro hc
    rw [specIsValueBlock_sixteen] at hc
    exact xor_pow_ne b9 h9 i hi (hc.2.1.2.1.symm.trans w2)
  · simp
    rw [Bool.eq_false_iff]
    intro hc
    rw [specIsValueBlock_sixteen] at hc
    exact xor_pow_ne b10 h10 i hi (hc.2.1.2.2.1.symm.trans w3)
  · simp
    rw [Bool.eq_false_iff]
    intro hc
    rw [specIsValueBlock_sixteen] at hc
    exact xor_pow_ne b11 h11 i hi (hc.2.1.2.2.2.symm.trans w4)
  · simp
    rw [Bool.eq_false_iff]
    intro hc
    rw [specIsValueBlock_sixteen] at hc
    exact xor_pow_ne b12 h12 i hi (hc.2.2.1.trans a1.symm)
  · simp
    rw [Bool.eq_false_iff]
    intro hc
    rw [specIsValueBlock_sixteen] at hc
    exact xor_pow_ne b13 h13 i hi (xor255_inj _ _ (hc.2.2.1.symm.trans a1))
  · simp
    rw [Bool.eq_false_iff]
    intro hc
    rw [specIsValueBlock_sixteen] at hc
    exact xor_pow_ne b14 h14 i hi (hc.2.2.2.1.symm.trans a2)
  · simp
    rw [Bool.eq_false_iff]
    intro hc
    rw [specIsValueBlock_sixteen] at hc
    exact xor_pow_ne b15 h15 i hi (xor255_inj _ _ (hc.2.2.2.2.symm.trans a3))

/-! ### Claim C5: value-block classification -/

/-- C5: for every 16-byte non-trailer, non-manufacturer block (rendered in
canonical hex so that it splits into the 7 fixed-width groups), the
classifier never errors; it returns the block's bytes and classifies the
block `V` (Value) exactly when `specIsValueBlock` holds — i.e. iff all
three value copies (the inverted one de-inverted) are byte-identical and
all four address copies (the two inverted ones de-inverted) are identical
— and `D` (Plain) otherwise; moreover flipping any single bit `i` of any
byte `p` of a block classified `V` changes the classification to `D`. -/
theorem c5_value_classification (bytes : List Nat)
    (h16 : bytes.length = 16) (hb : ∀ b ∈ bytes, b < 256) :
    processValueBlock (hexOfBytes bytes) =
      .ok (if specIsValueBlock bytes then .V else .D, bytes) ∧
    (∀ p, p < 16 → ∀ i, i < 8 → specIsValueBlock bytes = true →
      processValueBlock (hexOfBytes (bytes.set p (Nat.xor (bytes.getD p 0) (2 ^ i)))) =
        .ok (.D, bytes.set p (Nat.xor (bytes.getD p 0) (2 ^ i)))) := by
  refine ⟨processValueBlock_hexOfBytes bytes h16 hb, ?_⟩
  intro p hp i hi hv
  have hlen' : (bytes.set p (Nat.xor (bytes.getD p 0) (2 ^ i))).length = 16 := by
    simp [h16]
  have hb' : ∀ b ∈ bytes.set p (Nat.xor (bytes.getD p 0) (2 ^ i)), b < 256 := by
    intro b hbm
    rcases List.mem_or_eq_of_mem_set hbm with hmem | rfl
    · exact hb b hmem
    · have hpl : p < bytes.length := by omega
      have hgd : bytes.getD p 0 < 256 := by
        have hg : bytes.getD p 0 = bytes[p] := by
          rw [List.getD_eq_getElem?_getD, List.getElem?_eq_getElem hpl]
          rfl
        rw [hg]
        exact hb _ (List.getElem_mem hpl)
      exact xor_pow_lt _ hgd i hi
  rw [processValueBlock_hexOfBytes _ hlen' hb',
    specIsValueBlock_flip bytes h16 hb p i hp hi hv]
  rfl

/-- The byte sequence of the value block `11223344 EEDDCCBB 11223344 05 FA
05 FA`. -/
def valueBlockBytes : List Nat :=
  [17, 34, 51, 68, 238, 221, 204, 187, 17, 34, 51, 68, 5, 250, 5, 250]

/-- C5 witness: the concrete value block is classified `V`, and flipping
bit 0 of its first address copy (byte 12) flips the classification to
`D`. -/
theorem c5_value_classification_witness :
    valueBlockBytes.length = 16 ∧
    specIsValueBlock valueBlockBytes = true ∧
    processValueBlock (hexOfBytes valueBlockBytes) =
      .ok (if specIsValueBlock valueBlockBytes then .V else .D, valueBlockBytes) ∧
    processValueBlock
        (hexOfBytes (valueBlockBytes.set 12 (Nat.xor (valueBlockBytes.getD 12 0) (2 ^ 0)))) =
      .ok (.D, valueBlockBytes.set 12 (Nat.xor (valueBlockBytes.getD 12 0) (2 ^ 0))) :=
  ⟨by decide, by decide,
    (c5_value_classification valueBlockBytes (by decide) (by decide)).1,
    (c5_value_classification valueBlockBytes (by decide) (by decide)).2
      12 (by decide) 0 (by decide) (by decide)⟩
